import Mathlib

/-!
Verification development for the dependency-graph analysis tool
(`graph_base.py`, `package_utils.py`, `maven_parser.py`,
`reverse_dependencies.py`).  The Python code is shallowly embedded:
mutable object state becomes explicit state passing, exceptions become
`Except` / explicit flags, and Python's string/dict/list primitives are
modelled by executable Lean functions with the same observable behaviour.
-/

namespace ConfUprav

/-! ### Python string primitives

The source uses `str.split(':')`, `str.lower()`, `str.upper()`,
`str.startswith`, `str.endswith`, `x in s` (substring test),
`str.replace` and `' -> '.join`.  They are modelled on `List Char` by
structurally recursive functions so that every concrete run reduces in
the kernel. -/

/-- `s.split(sep)` for a one-character separator, Python semantics:
empty parts are kept and `"".split(c) = [""]`. -/
def pySplitChar (sep : Char) : List Char → List Char → List String
  | [], acc => [String.mk acc.reverse]
  | c :: rest, acc =>
    if c = sep then String.mk acc.reverse :: pySplitChar sep rest []
    else pySplitChar sep rest (c :: acc)

def pySplit (sep : Char) (s : String) : List String :=
  pySplitChar sep s.toList []

/-- `s.lower()` (ASCII, as used by the source on coordinate strings). -/
def pyLower (s : String) : String := String.mk (s.toList.map Char.toLower)

/-- `s.upper()`. -/
def pyUpper (s : String) : String := String.mk (s.toList.map Char.toUpper)

/-- `s.startswith(p)`. -/
def pyStartsWith (s p : String) : Bool := p.toList.isPrefixOf s.toList

/-- `s.endswith(p)`. -/
def pyEndsWith (s p : String) : Bool :=
  p.toList.reverse.isPrefixOf s.toList.reverse

/-- `pat in hay` for Python strings: substring containment. -/
def listContains (pat : List Char) : List Char → Bool
  | [] => pat.isEmpty
  | c :: rest => pat.isPrefixOf (c :: rest) || listContains pat rest

def strContains (hay pat : String) : Bool := listContains pat.toList hay.toList

/-- `name.replace('Version', '')`: removes every (leftmost-first,
non-overlapping) occurrence of `"Version"`. -/
def replaceVersionAll : List Char → List Char
  | 'V' :: 'e' :: 'r' :: 's' :: 'i' :: 'o' :: 'n' :: rest => replaceVersionAll rest
  | c :: rest => c :: replaceVersionAll rest
  | [] => []

def pyReplaceVersion (s : String) : String := String.mk (replaceVersionAll s.toList)

/-- `sep.join(parts)`. -/
def pyJoin (sep : String) : List String → String
  | [] => ""
  | [s] => s
  | s :: rest => s ++ sep ++ pyJoin sep rest

/-! ### Errors (`errors.py`) -/

inductive PyError where
  | invalidValue : String → PyError
  | dependencyError : String → PyError
  | graphError : String → PyError
  deriving DecidableEq, Repr

/-! ### `package_utils.py` -/

/-- `PackageUtils.parse_package_name`: splits on `':'`, requires 2 or 3
parts, group and artifact non-empty; version is `none` when only 2 parts
are given. -/
def parse_package_name (packageName : String) :
    Except PyError (String × String × Option String) :=
  let parts := pySplit ':' packageName
  if parts.length < 2 || parts.length > 3 then
    Except.error (PyError.invalidValue
      "Неверный формат имени пакета. Ожидается: groupId:artifactId[:version]")
  else
    let groupId := parts.headD ""
    let artifactId := parts.getD 1 ""
    let version := if parts.length = 3 then some (parts.getD 2 "") else none
    if groupId = "" || artifactId = "" then
      Except.error (PyError.invalidValue "GroupId и ArtifactId не могут быть пустыми")
    else Except.ok (groupId, artifactId, version)

/-- `PackageUtils.is_version_resolved`: `version is not None and not
version.startswith('${')`. -/
def is_version_resolved : Option String → Bool
  | none => false
  | some v => !(pyStartsWith v "$\x7b")

/-! ### `maven_parser.py` -/

/-- `MavenDependencyParser._resolve_property`. -/
def resolve_property (propertyRef : String) (properties : List (String × String)) :
    String :=
  if !(pyStartsWith propertyRef "$\x7b") || !(pyEndsWith propertyRef "\x7d") then
    propertyRef
  else
    let propertyName := String.mk ((propertyRef.toList.drop 2).dropLast)
    match List.lookup propertyName properties with
    | some v => v
    | none =>
      if pyEndsWith propertyName "Version" then
        let artifactName := pyLower (pyReplaceVersion propertyName)
        match properties.find? (fun kv =>
            pyEndsWith (pyLower kv.1) "version" &&
            strContains (pyLower kv.1) artifactName) with
        | some kv => kv.2
        | none => propertyRef
      else propertyRef

/-- `MavenDependencyParser.resolve_version`.  The network call
`_get_latest_version` is an oracle parameter `latest`. -/
def resolve_version (latest : String → String → Except PyError String)
    (groupId artifactId : String) (version : Option String) :
    Except PyError String :=
  match version with
  | none => latest groupId artifactId
  | some v =>
    if v ≠ "" ∧ (pyUpper v = "LATEST" ∨ pyUpper v = "RELEASE") then
      latest groupId artifactId
    else if v = "" then latest groupId artifactId
    else Except.ok v

/-! ### `graph_base.py` -/

/-- One dependency dict as produced by the parser backends:
`{'groupId': …, 'artifactId': …, 'version': …, 'scope': …}`.
`version` is `Option` because the XML parser may yield `None`. -/
structure Dep where
  groupId : String
  artifactId : String
  version : Option String
  scope : String
  deriving DecidableEq, Repr

/-- Python `f"{dep['version']}"` — `None` prints as `"None"`. -/
def optStr : Option String → String
  | none => "None"
  | some s => s

/-- `f"{dep['groupId']}:{dep['artifactId']}:{dep['version']}"`. -/
def depKey (dep : Dep) : String :=
  dep.groupId ++ ":" ++ dep.artifactId ++ ":" ++ optStr dep.version

/-- Python `dict` assignment `d[k] = v`: overwrite in place if the key
exists, else append. -/
def dictSet {α : Type} (d : List (String × α)) (k : String) (v : α) :
    List (String × α) :=
  if d.any (fun kv => kv.1 == k) then
    d.map (fun kv => if kv.1 == k then (k, v) else kv)
  else d ++ [(k, v)]

/-- The mutable state of a `DependencyGraph` object during one build:
`self.visited`, `self.dependency_tree`, plus two observation logs — the
cycle messages printed when `CycleDetectedError` is raised, and the
packages for which `parser.get_dependencies` was actually called. -/
structure BuildState where
  visited : List String
  tree : List (String × List Dep)
  cycles : List String
  fetched : List String
  deriving DecidableEq, Repr

/-- The `parser.get_dependencies` oracle (network / repository backend).
An `Except.error` models `get_dependencies` raising. -/
abbrev Fetch := String → String → Option String → Except PyError (List Dep)

/-- The `try`-block of `_bfs_recursive` up to the fetch:
`parse_package_name(package)` then `parser.get_dependencies(...)`. -/
def nodeFetch (fetch : Fetch) (package : String) : Except PyError (List Dep) :=
  match parse_package_name package with
  | Except.error e => Except.error e
  | Except.ok (groupId, artifactId, version) => fetch groupId artifactId version

/-- The `for package in packages:` loop of `_bfs_recursive`.  Returns the
state, the accumulated `next_level_packages`, and whether
`CycleDetectedError` was raised (which aborts the rest of the loop). -/
def process_level (fetch : Fetch) (filt : String) :
    List String → List String → BuildState → BuildState × List String × Bool
  | [], _, st => (st, [], false)
  | package :: rest, path, st =>
    if package ∈ st.visited then
      if package ∈ path then
        let cyclePath := pyJoin " -> " (path ++ [package])
        ({st with cycles := st.cycles ++ [cyclePath]}, [], true)
      else process_level fetch filt rest path st
    else
      let st1 := {st with visited := st.visited ++ [package]}
      if !(filt == "") && strContains (pyLower package) filt then
        process_level fetch filt rest path st1
      else
        match parse_package_name package with
        | Except.error _ =>
          process_level fetch filt rest path
            {st1 with tree := dictSet st1.tree package []}
        | Except.ok (groupId, artifactId, version) =>
          let st2 := {st1 with fetched := st1.fetched ++ [package]}
          match fetch groupId artifactId version with
          | Except.error _ =>
            process_level fetch filt rest path
              {st2 with tree := dictSet st2.tree package []}
          | Except.ok dependencies =>
            let filteredDeps := dependencies.filter (fun dep =>
              is_version_resolved dep.version &&
              (filt == "" ||
                !strContains (pyLower (dep.groupId ++ ":" ++ dep.artifactId)) filt))
            let st3 := {st2 with tree := dictSet st2.tree package filteredDeps}
            let newKeys := filteredDeps.map depKey
            let result := process_level fetch filt rest path st3
            (result.1, newKeys ++ result.2.1, result.2.2)

/-- `DependencyGraph._bfs_recursive(packages, current_depth, path)`.

The only use of `current_depth` in the source is the guard
`current_depth >= self.max_depth`, and every recursive call passes
`current_depth + 1`; the embedding carries the equivalent remaining
budget `remaining = max_depth - current_depth`, so the guard is
`remaining = 0`.  The returned `Bool` is true when a
`CycleDetectedError` escapes the call; each child call in the
second loop is wrapped in `try/except CycleDetectedError: continue`,
so its flag is dropped. -/
def bfs_recursive (fetch : Fetch) (filt : String) :
    Nat → List String → List String → BuildState → BuildState × Bool
  | 0, _, _, st => (st, false)
  | remaining + 1, packages, path, st =>
    match process_level fetch filt packages path st with
    | (st1, _, true) => (st1, true)
    | (st1, nextLevel, false) =>
      if nextLevel.isEmpty then (st1, false)
      else
        let lastPkg := packages.getLastD ""
        let newPath := if lastPkg ∈ path then path else path ++ [lastPkg]
        (nextLevel.foldl
          (fun s pkg => (bfs_recursive fetch filt remaining [pkg] newPath s).1)
          st1, false)

/-- `DependencyGraph.build_graph(root_package)`: parse and
version-resolve the root, clear the state, run `_bfs_recursive` from
depth 0.  Any exception escaping becomes `GraphError`; the only
possible ones are root parsing/resolution failures and a top-level
`CycleDetectedError`.  The filter substring is lowered at construction
time (`__init__`). -/
def build_graph (latest : String → String → Except PyError String)
    (fetch : Fetch) (maxDepth : Nat) (filterSubstring : String)
    (rootPackage : String) : Except PyError BuildState :=
  let filt := pyLower filterSubstring
  match parse_package_name rootPackage with
  | Except.error _ => Except.error (PyError.graphError "Ошибка построения графа")
  | Except.ok (groupId, artifactId, version) =>
    match resolve_version latest groupId artifactId version with
    | Except.error _ => Except.error (PyError.graphError "Ошибка построения графа")
    | Except.ok resolvedVersion =>
      let rootKey := groupId ++ ":" ++ artifactId ++ ":" ++ resolvedVersion
      let result := bfs_recursive fetch filt maxDepth [rootKey] [] ⟨[], [], [], []⟩
      if result.2 then Except.error (PyError.graphError "Ошибка построения графа")
      else Except.ok result.1

/-! ### `reverse_dependencies.py` -/

/-- `ReverseDependencyFinder._get_dependency_key`: bare artifact for the
test format (falsy `groupId`), Maven coordinate otherwise. -/
def get_dependency_key (dep : Dep) : String :=
  if dep.groupId = "" then dep.artifactId
  else dep.groupId ++ ":" ++ dep.artifactId ++ ":" ++ optStr dep.version

/-- The inner `dfs(current, path)` closure of `_find_dependency_paths`.
The accumulator is the pair of the mutated closure variables
`(visited, paths)`.  Note the source's early `return` after recording a
path: that exit skips `visited.remove(current)`.  The fuel argument only
bounds the recursion depth; `find_dependency_paths` passes more fuel
than any run can consume (each nested call extends `path` by a fresh
node drawn from the graph's keys and dependency keys). -/
def dfs_paths (graphData : List (String × List Dep)) (target : String) :
    Nat → String → List String → List String × List (List String) →
    List String × List (List String)
  | 0, _, _, acc => acc
  | fuel + 1, current, path, (visited, paths) =>
    if current ∈ visited then (visited, paths)
    else
      let visited1 := visited ++ [current]
      let currentPath := path ++ [current]
      if current = target ∧ currentPath.length > 1 then
        (visited1, paths ++ [currentPath])
      else
        let deps := (List.lookup current graphData).getD []
        let acc1 := deps.foldl (fun acc dep =>
          let depK := get_dependency_key dep
          if depK ∈ currentPath then acc
          else dfs_paths graphData target fuel depK currentPath acc)
          (visited1, paths)
        (acc1.1.erase current, acc1.2)

/-- Fuel bound used by `find_dependency_paths`: one unit per node that
can ever appear on a path (every non-initial path entry is the key of
some recorded dependency), plus slack. -/
def dfsFuel (graphData : List (String × List Dep)) : Nat :=
  graphData.length + (graphData.map (fun kv => kv.2.length)).sum + 2

/-- `ReverseDependencyFinder._find_dependency_paths`. -/
def find_dependency_paths (graphData : List (String × List Dep))
    (startPackage targetPackage : String) : List (List String) :=
  (dfs_paths graphData targetPackage (dfsFuel graphData) startPackage [] ([], [])).2

/-- `ReverseDependencyFinder._analyze_reverse_dependencies`: for every
key of the graph, collect the paths to the target; keys with no path
are left out. -/
def analyze_reverse_dependencies (graphData : List (String × List Dep))
    (targetPackage : String) : List (String × List (List String)) :=
  graphData.foldl (fun acc kv =>
    let paths := find_dependency_paths graphData kv.1 targetPackage
    if paths.isEmpty then acc else dictSet acc kv.1 paths) []

/-! ### `test_repository.py` — the flat-file builder variant

`TestDependencyGraph._bfs_recursive` has the same traversal skeleton as
`DependencyGraph._bfs_recursive`, but the try-block differs: it calls
`self.parser.get_dependencies(package)` directly (no coordinate
parsing), filters edges by `dep['artifactId'].lower()` alone, and
enqueues `dep['artifactId']` for the next level. -/

/-- The `TestRepositoryParser.get_dependencies` oracle (flat-file
backend); an `Except.error` models it raising. -/
abbrev TFetch := String → Except PyError (List Dep)

/-- The `for package in packages:` loop of
`TestDependencyGraph._bfs_recursive`. -/
def t_process_level (tfetch : TFetch) (filt : String) :
    List String → List String → BuildState → BuildState × List String × Bool
  | [], _, st => (st, [], false)
  | package :: rest, path, st =>
    if package ∈ st.visited then
      if package ∈ path then
        let cyclePath := pyJoin " -> " (path ++ [package])
        ({st with cycles := st.cycles ++ [cyclePath]}, [], true)
      else t_process_level tfetch filt rest path st
    else
      let st1 := {st with visited := st.visited ++ [package]}
      if !(filt == "") && strContains (pyLower package) filt then
        t_process_level tfetch filt rest path st1
      else
        let st2 := {st1 with fetched := st1.fetched ++ [package]}
        match tfetch package with
        | Except.error _ =>
          t_process_level tfetch filt rest path
            {st2 with tree := dictSet st2.tree package []}
        | Except.ok dependencies =>
          let filteredDeps := dependencies.filter (fun dep =>
            filt == "" || !strContains (pyLower dep.artifactId) filt)
          let st3 := {st2 with tree := dictSet st2.tree package filteredDeps}
          let newKeys := filteredDeps.map (fun dep => dep.artifactId)
          let result := t_process_level tfetch filt rest path st3
          (result.1, newKeys ++ result.2.1, result.2.2)

/-- `TestDependencyGraph._bfs_recursive`, with the same
remaining-budget reparameterisation of `current_depth` as
`bfs_recursive`. -/
def t_bfs_recursive (tfetch : TFetch) (filt : String) :
    Nat → List String → List String → BuildState → BuildState × Bool
  | 0, _, _, st => (st, false)
  | remaining + 1, packages, path, st =>
    match t_process_level tfetch filt packages path st with
    | (st1, _, true) => (st1, true)
    | (st1, nextLevel, false) =>
      if nextLevel.isEmpty then (st1, false)
      else
        let lastPkg := packages.getLastD ""
        let newPath := if lastPkg ∈ path then path else path ++ [lastPkg]
        (nextLevel.foldl
          (fun s pkg => (t_bfs_recursive tfetch filt remaining [pkg] newPath s).1)
          st1, false)

/-- `TestDependencyGraph.build_graph`: validates the repository format
(an oracle here), clears the state, and traverses from the root
package name; any escaping exception becomes `TestRepositoryError`. -/
def t_build_graph (validate : Except PyError Unit) (tfetch : TFetch)
    (maxDepth : Nat) (filterSubstring rootPackage : String) :
    Except PyError BuildState :=
  let filt := pyLower filterSubstring
  match validate with
  | Except.error _ =>
    Except.error (PyError.graphError "Ошибка построения тестового графа")
  | Except.ok _ =>
    let result := t_bfs_recursive tfetch filt maxDepth [rootPackage] [] ⟨[], [], [], []⟩
    if result.2 then
      Except.error (PyError.graphError "Ошибка построения тестового графа")
    else Except.ok result.1

/-! ### Concrete fixtures used by the theorems below -/

/-- A metadata oracle with no data (`_get_latest_version` always fails);
none of the fixtures below ever consults it. -/
def noMeta : String → String → Except PyError String :=
  fun _ _ => Except.error (PyError.dependencyError "no metadata")

/-- Backend for the two-package cycle `a:a:1.0 → b:b:1.0 → a:a:1.0`. -/
def cycFetch : Fetch := fun g a v =>
  match g, a, v with
  | "a", "a", some "1.0" => Except.ok [⟨"b", "b", some "1.0", "compile"⟩]
  | "b", "b", some "1.0" => Except.ok [⟨"a", "a", some "1.0", "compile"⟩]
  | _, _, _ => Except.ok []

/-- Backend with the single edge `a:a:1.0 → b:b:1.0`. -/
def fetchAB : Fetch := fun g a v =>
  match g, a, v with
  | "a", "a", some "1.0" => Except.ok [⟨"b", "b", some "1.0", "compile"⟩]
  | _, _, _ => Except.ok []

/-- Backend that always raises. -/
def failFetch : Fetch := fun _ _ _ => Except.error (PyError.dependencyError "boom")

/-- Backend whose root has one resolvable dependency and one whose
version is the unresolved placeholder `${undefined.prop}`. -/
def wFetch : Fetch := fun g a v =>
  match g, a, v with
  | "a", "a", some "1.0" =>
    Except.ok [⟨"b", "b", some "2.0", "compile"⟩,
               ⟨"c", "c", some "${undefined.prop}", "compile"⟩]
  | _, _, _ => Except.ok []

/-- Backend whose root has one ordinary dependency and one whose
`group:artifact` key contains the substring `bad`. -/
def bFetch : Fetch := fun g a v =>
  match g, a, v with
  | "a", "a", some "1.0" =>
    Except.ok [⟨"x", "x", some "1", "compile"⟩,
               ⟨"bad", "lib", some "1", "compile"⟩]
  | _, _, _ => Except.ok []

/-- A graph edge in the bare-name format (`get_dependency_key` maps it
to its artifact name, matching the graph's keys). -/
def dDep (a : String) : Dep := ⟨"", a, some "1.0.0", "compile"⟩

/-- The diamond `A→B→D`, `A→C→D`. -/
def diamondGraph : List (String × List Dep) :=
  [("A", [dDep "B", dDep "C"]), ("B", [dDep "D"]), ("C", [dDep "D"]), ("D", [])]

/-- A graph in which `X` has a direct edge to `Y`, but an earlier
sibling dependency `Z` also reaches `Y`. -/
def c2Graph : List (String × List Dep) :=
  [("X", [dDep "Z", dDep "Y"]), ("Z", [dDep "Y"]), ("Y", [])]

/-- Flat-file backend for the test repository `A: B` / `B:` — the
dependency dicts carry `groupId='test'` as in
`TestRepositoryParser.get_dependencies`. -/
def tFetchAB : TFetch := fun p =>
  match p with
  | "A" => Except.ok [⟨"test", "B", some "1.0.0", "compile"⟩]
  | _ => Except.ok []

/-- The inner name `property_ref[2:-1]` of a `${...}` reference. -/
def innerNameOf (propertyRef : String) : String :=
  String.mk ((propertyRef.toList.drop 2).dropLast)

/-- The C7 claim's fallback as stated: strip one *trailing* `"Version"`
suffix (7 characters) from the inner name before the heuristic search. -/
def resolve_property_claim (propertyRef : String)
    (properties : List (String × String)) : String :=
  if !(pyStartsWith propertyRef "$\x7b") || !(pyEndsWith propertyRef "\x7d") then
    propertyRef
  else
    let propertyName := innerNameOf propertyRef
    match List.lookup propertyName properties with
    | some v => v
    | none =>
      if pyEndsWith propertyName "Version" then
        let artifactName :=
          pyLower (String.mk ((propertyName.toList.reverse.drop 7).reverse))
        match properties.find? (fun kv =>
            pyEndsWith (pyLower kv.1) "version" &&
            strContains (pyLower kv.1) artifactName) with
        | some kv => kv.2
        | none => propertyRef
      else propertyRef

/-! ### Invariants of the build state -/

/-- Every recorded adjacency entry satisfies: a key whose fetch fails is
mapped to `[]`, and every stored edge has a resolved version and (under
a non-empty filter) a `group:artifact` key not containing the filter. -/
def TreeOk (fetch : Fetch) (filt : String) (tr : List (String × List Dep)) : Prop :=
  ∀ pkg deps, (pkg, deps) ∈ tr →
    ((nodeFetch fetch pkg).isOk = false → deps = []) ∧
    ∀ dep, dep ∈ deps →
      is_version_resolved dep.version = true ∧
      (filt ≠ "" → strContains (pyLower (dep.groupId ++ ":" ++ dep.artifactId)) filt = false)

/-- Under a non-empty filter, no fetched package key contains the
filter substring. -/
def FetchedOk (filt : String) (l : List String) : Prop :=
  filt ≠ "" → ∀ p, p ∈ l → strContains (pyLower p) filt = false

/-- Combined state invariant of the BFS traversal. -/
def StInv (fetch : Fetch) (filt : String) (st : BuildState) : Prop :=
  TreeOk fetch filt st.tree ∧ FetchedOk filt st.fetched

/-- Edge invariant of the flat-file builder: under a non-empty filter,
no stored edge has an `artifactId` containing the filter (the test
builder filters by `artifactId` alone, not by `group:artifact`). -/
def TTreeOk (filt : String) (tr : List (String × List Dep)) : Prop :=
  ∀ pkg deps, (pkg, deps) ∈ tr → ∀ dep, dep ∈ deps →
    filt ≠ "" → strContains (pyLower dep.artifactId) filt = false

/-- Combined state invariant of the flat-file traversal. -/
def TStInv (filt : String) (st : BuildState) : Prop :=
  TTreeOk filt st.tree ∧ FetchedOk filt st.fetched

/-! ### Helper lemmas -/

theorem foldl_preserve {α β : Type} {P : β → Prop} (f : β → α → β)
    (hf : ∀ b a, P b → P (f b a)) :
    ∀ (l : List α) (b : β), P b → P (l.foldl f b) := by
  intro l
  induction l with
  | nil => intro b h; exact h
  | cons a rest ihl =>
    intro b h
    rw [List.foldl_cons]
    exact ihl _ (hf b a h)

theorem mem_dictSet {α : Type} {d : List (String × α)} {k : String} {v : α}
    {e : String × α} (h : e ∈ dictSet d k v) : e ∈ d ∨ e = (k, v) := by
  unfold dictSet at h
  by_cases ha : d.any (fun kv => kv.1 == k)
  · rw [if_pos ha] at h
    rcases List.mem_map.mp h with ⟨p, hp, he⟩
    cases hpk : p.1 == k with
    | true => right; rw [← he, if_pos hpk]
    | false =>
      left
      rw [← he, if_neg (by rw [hpk]; exact Bool.false_ne_true)]
      exact hp
  · rw [if_neg ha] at h
    rcases List.mem_append.mp h with hin | hone
    · exact Or.inl hin
    · exact Or.inr (List.mem_singleton.mp hone)

theorem dictSet_mem_self {α : Type} (d : List (String × α)) (k : String) (v : α) :
    (k, v) ∈ dictSet d k v := by
  unfold dictSet
  by_cases ha : d.any (fun kv => kv.1 == k)
  · rw [if_pos ha]
    rcases List.any_eq_true.mp ha with ⟨p, hp, hpk⟩
    exact List.mem_map.mpr ⟨p, hp, by rw [if_pos hpk]⟩
  · rw [if_neg ha]
    exact List.mem_append_right _ (List.mem_singleton.mpr rfl)

theorem dictSet_keeps {α : Type} {d : List (String × α)} {k' : String}
    (h : ∃ l, (k', l) ∈ d) (k : String) (v : α) :
    ∃ l, (k', l) ∈ dictSet d k v := by
  rcases h with ⟨l, hl⟩
  unfold dictSet
  by_cases ha : d.any (fun kv => kv.1 == k)
  · rw [if_pos ha]
    cases hkk : k' == k with
    | true =>
      refine ⟨v, List.mem_map.mpr ⟨(k', l), hl, ?_⟩⟩
      rw [if_pos hkk, eq_of_beq hkk]
    | false =>
      refine ⟨l, List.mem_map.mpr ⟨(k', l), hl, ?_⟩⟩
      rw [if_neg (by rw [hkk]; exact Bool.false_ne_true)]
  · rw [if_neg ha]
    exact ⟨l, List.mem_append_left _ hl⟩

theorem lookup_none_of_keys {α : Type} (t : String) :
    ∀ d : List (String × α), (∀ p, p ∈ d → (t == p.1) = false) →
      List.lookup t d = none := by
  intro d
  induction d with
  | nil => intro _; rfl
  | cons p rest ih =>
    intro h
    obtain ⟨a, b⟩ := p
    have ha : (t == a) = false := h (a, b) (List.mem_cons_self _ _)
    simp only [List.lookup, ha]
    exact ih (fun q hq => h q (List.mem_cons_of_mem _ hq))

theorem keys_of_lookup_none {α : Type} (t : String) :
    ∀ d : List (String × α), List.lookup t d = none →
      ∀ p, p ∈ d → (t == p.1) = false := by
  intro d
  induction d with
  | nil => intro _ p hp; exact absurd hp (List.not_mem_nil p)
  | cons q rest ih =>
    intro h p hp
    obtain ⟨a, b⟩ := q
    cases hab : t == a with
    | true =>
      simp only [List.lookup, hab] at h
      exact Option.noConfusion h
    | false =>
      simp only [List.lookup, hab] at h
      rcases List.mem_cons.mp hp with rfl | hin
      · exact hab
      · exact ih h p hin

theorem lookup_dictSet_none {α : Type} {t k : String} {v : α}
    {d : List (String × α)} (hne : k ≠ t) (hd : List.lookup t d = none) :
    List.lookup t (dictSet d k v) = none := by
  apply lookup_none_of_keys
  intro p hp
  rcases mem_dictSet hp with hin | heq
  · exact keys_of_lookup_none t d hd p hin
  · rw [heq]
    exact beq_eq_false_iff_ne.mpr (fun he => hne he.symm)

/-! ### The reverse DFS never records a path from the target to itself -/

/-- If the target already occurs in `path` (and `current` differs from
it), or the search starts at the target itself with an empty path, the
DFS records no path: a recorded path must end at the target at length
≥ 2, and a node already on the current path is never re-entered. -/
theorem dfs_paths_no_new (graphData : List (String × List Dep)) (target : String) :
    ∀ (fuel : Nat) (current : String) (path visited : List String)
      (paths : List (List String)),
      (target ∈ path ∧ current ≠ target) ∨ (current = target ∧ path = []) →
      (dfs_paths graphData target fuel current path (visited, paths)).2 = paths := by
  intro fuel
  induction fuel with
  | zero => intro current path visited paths _; rfl
  | succ fuel ih =>
    intro current path visited paths h
    rw [dfs_paths]
    by_cases hv : current ∈ visited
    · rw [if_pos hv]
    · rw [if_neg hv]
      have hrec : ¬ (current = target ∧ (path ++ [current]).length > 1) := by
        rcases h with ⟨hp, hne⟩ | ⟨heq, hnil⟩
        · exact fun hc => hne hc.1
        · subst heq; subst hnil; simp
      rw [if_neg hrec]
      have hcp : target ∈ path ++ [current] := by
        rcases h with ⟨hp, _⟩ | ⟨heq, _⟩
        · exact List.mem_append_left _ hp
        · subst heq; exact List.mem_append_right _ (List.mem_singleton.mpr rfl)
      have hfold : ∀ (deps : List Dep) (acc : List String × List (List String)),
          acc.2 = paths →
          (deps.foldl (fun acc dep =>
            let depK := get_dependency_key dep
            if depK ∈ path ++ [current] then acc
            else dfs_paths graphData target fuel depK (path ++ [current]) acc)
            acc).2 = paths := by
        intro deps
        induction deps with
        | nil => intro acc ha; exact ha
        | cons d rest ihd =>
          intro acc ha
          rw [List.foldl_cons]
          apply ihd
          show (if get_dependency_key d ∈ path ++ [current] then acc
              else dfs_paths graphData target fuel (get_dependency_key d)
                (path ++ [current]) acc).2 = paths
          by_cases hk : get_dependency_key d ∈ path ++ [current]
          · rw [if_pos hk]; exact ha
          · rw [if_neg hk]
            obtain ⟨v2, p2⟩ := acc
            rw [ih (get_dependency_key d) (path ++ [current]) v2 p2
              (Or.inl ⟨hcp, fun he => hk (by rw [he]; exact hcp)⟩)]
            exact ha
      exact hfold _ _ rfl

/-- From the target itself, no dependency path is ever recorded. -/
theorem find_paths_target_self (graphData : List (String × List Dep))
    (target : String) : find_dependency_paths graphData target target = [] := by
  unfold find_dependency_paths
  exact dfs_paths_no_new graphData target _ target [] [] [] (Or.inr ⟨rfl, rfl⟩)

/-! ### Invariant preservation through the BFS -/

theorem TreeOk_dictSet {fetch : Fetch} {filt : String}
    {tr : List (String × List Dep)} (h : TreeOk fetch filt tr) {k : String}
    {v : List Dep} (hfail : (nodeFetch fetch k).isOk = false → v = [])
    (hdeps : ∀ dep, dep ∈ v → is_version_resolved dep.version = true ∧
      (filt ≠ "" → strContains (pyLower (dep.groupId ++ ":" ++ dep.artifactId)) filt = false)) :
    TreeOk fetch filt (dictSet tr k v) := by
  intro pkg deps hmem
  rcases mem_dictSet hmem with hin | heq
  · exact h pkg deps hin
  · injection heq with h1 h2
    subst h1; subst h2
    exact ⟨hfail, hdeps⟩

theorem process_level_inv (fetch : Fetch) (filt : String) :
    ∀ (pkgs path : List String) (st : BuildState), StInv fetch filt st →
      StInv fetch filt (process_level fetch filt pkgs path st).1 := by
  intro pkgs
  induction pkgs with
  | nil => intro path st h; exact h
  | cons package rest ih =>
    intro path st h
    rw [process_level]
    by_cases hv : package ∈ st.visited
    · rw [if_pos hv]
      by_cases hp : package ∈ path
      · rw [if_pos hp]; exact h
      · rw [if_neg hp]; exact ih path st h
    · rw [if_neg hv]
      dsimp only
      have h1 : StInv fetch filt {st with visited := st.visited ++ [package]} := h
      by_cases hf : (!(filt == "") && strContains (pyLower package) filt) = true
      · rw [if_pos hf]
        exact ih path _ h1
      · rw [if_neg hf]
        have hf0 : (!(filt == "") && strContains (pyLower package) filt) = false :=
          Bool.eq_false_iff.mpr hf
        have hfet : filt ≠ "" → strContains (pyLower package) filt = false := by
          intro hne
          have hb : (filt == "") = false := beq_eq_false_iff_ne.mpr hne
          rw [hb] at hf0
          simpa using hf0
        cases hparse : parse_package_name package with
        | error e =>
          dsimp only
          refine ih path
            {st with
              visited := st.visited ++ [package],
              tree := dictSet st.tree package []} ⟨?_, h1.2⟩
          exact TreeOk_dictSet h1.1 (fun _ => rfl)
            (fun dep hd => absurd hd (List.not_mem_nil dep))
        | ok t =>
          obtain ⟨g, a, v⟩ := t
          dsimp only
          have h2 : StInv fetch filt
              {st with visited := st.visited ++ [package],
                       fetched := st.fetched ++ [package]} := by
            refine ⟨h1.1, fun hne p hp => ?_⟩
            rcases List.mem_append.mp hp with hin | hone
            · exact h1.2 hne p hin
            · rw [List.mem_singleton.mp hone]
              exact hfet hne
          cases hfetch : fetch g a v with
          | error e =>
            dsimp only
            refine ih path
              {st with
                visited := st.visited ++ [package],
                tree := dictSet st.tree package [],
                fetched := st.fetched ++ [package]} ⟨?_, h2.2⟩
            exact TreeOk_dictSet h2.1 (fun _ => rfl)
              (fun dep hd => absurd hd (List.not_mem_nil dep))
          | ok dependencies =>
            dsimp only
            refine ih path
              {st with
                visited := st.visited ++ [package],
                tree := dictSet st.tree package (dependencies.filter (fun dep =>
                  is_version_resolved dep.version &&
                  (filt == "" ||
                    !strContains (pyLower (dep.groupId ++ ":" ++ dep.artifactId)) filt))),
                fetched := st.fetched ++ [package]} ⟨?_, h2.2⟩
            apply TreeOk_dictSet h2.1
            · intro hff
              exfalso
              have hok : (nodeFetch fetch package).isOk = true := by
                unfold nodeFetch
                rw [hparse]
                show (fetch g a v).isOk = true
                rw [hfetch]
                rfl
              rw [hok] at hff
              exact absurd hff (by decide)
            · intro dep hd
              have hcond := (List.mem_filter.mp hd).2
              rw [Bool.and_eq_true] at hcond
              refine ⟨hcond.1, fun hne => ?_⟩
              have hb : (filt == "") = false := beq_eq_false_iff_ne.mpr hne
              have h6 := hcond.2
              rw [hb] at h6
              simpa using h6

theorem process_level_no_cycle_nil (fetch : Fetch) (filt : String) :
    ∀ (pkgs : List String) (st : BuildState),
      (process_level fetch filt pkgs [] st).2.2 = false := by
  intro pkgs
  induction pkgs with
  | nil => intro st; rfl
  | cons package rest ih =>
    intro st
    rw [process_level]
    by_cases hv : package ∈ st.visited
    · rw [if_pos hv, if_neg (List.not_mem_nil package)]
      exact ih _
    · rw [if_neg hv]
      dsimp only
      by_cases hf : (!(filt == "") && strContains (pyLower package) filt) = true
      · rw [if_pos hf]; exact ih _
      · rw [if_neg hf]
        cases hparse : parse_package_name package with
        | error e => exact ih _
        | ok t =>
          obtain ⟨g, a, v⟩ := t
          dsimp only
          cases hfetch : fetch g a v with
          | error e => exact ih _
          | ok dependencies => exact ih _

theorem process_level_keeps_key (fetch : Fetch) (filt : String) (k : String) :
    ∀ (pkgs path : List String) (st : BuildState), (∃ l, (k, l) ∈ st.tree) →
      ∃ l, (k, l) ∈ (process_level fetch filt pkgs path st).1.tree := by
  intro pkgs
  induction pkgs with
  | nil => intro path st h; exact h
  | cons package rest ih =>
    intro path st h
    rw [process_level]
    by_cases hv : package ∈ st.visited
    · rw [if_pos hv]
      by_cases hp : package ∈ path
      · rw [if_pos hp]; exact h
      · rw [if_neg hp]; exact ih path st h
    · rw [if_neg hv]
      dsimp only
      by_cases hf : (!(filt == "") && strContains (pyLower package) filt) = true
      · rw [if_pos hf]; exact ih path _ h
      · rw [if_neg hf]
        cases hparse : parse_package_name package with
        | error e =>
          exact ih path
            {st with
              visited := st.visited ++ [package],
              tree := dictSet st.tree package []} (dictSet_keeps h package [])
        | ok t =>
          obtain ⟨g, a, v⟩ := t
          dsimp only
          cases hfetch : fetch g a v with
          | error e =>
            exact ih path
              {st with
                visited := st.visited ++ [package],
                tree := dictSet st.tree package [],
                fetched := st.fetched ++ [package]} (dictSet_keeps h package [])
          | ok dependencies =>
            exact ih path
              {st with
                visited := st.visited ++ [package],
                tree := dictSet st.tree package (dependencies.filter (fun dep =>
                  is_version_resolved dep.version &&
                  (filt == "" ||
                    !strContains (pyLower (dep.groupId ++ ":" ++ dep.artifactId)) filt))),
                fetched := st.fetched ++ [package]} (dictSet_keeps h package _)

/-- Processing a level whose head is an unvisited package under an
empty filter always records that package as a key. -/
theorem process_level_records_head (fetch : Fetch) (package : String)
    (rest path : List String) (st : BuildState) (hv : package ∉ st.visited) :
    ∃ l, (package, l) ∈ (process_level fetch "" (package :: rest) path st).1.tree := by
  rw [process_level]
  rw [if_neg hv]
  dsimp only
  rw [if_neg (by simp)]
  cases hparse : parse_package_name package with
  | error e =>
    exact process_level_keeps_key fetch "" package rest path _
      ⟨[], dictSet_mem_self _ _ _⟩
  | ok t =>
    obtain ⟨g, a, v⟩ := t
    dsimp only
    cases hfetch : fetch g a v with
    | error e =>
      exact process_level_keeps_key fetch "" package rest path _
        ⟨[], dictSet_mem_self _ _ _⟩
    | ok dependencies =>
      exact process_level_keeps_key fetch "" package rest path _
        ⟨_, dictSet_mem_self _ _ _⟩

theorem bfs_recursive_inv (fetch : Fetch) (filt : String) :
    ∀ (n : Nat) (pkgs path : List String) (st : BuildState), StInv fetch filt st →
      StInv fetch filt (bfs_recursive fetch filt n pkgs path st).1 := by
  intro n
  induction n with
  | zero => intro pkgs path st h; exact h
  | succ n ih =>
    intro pkgs path st h
    rw [bfs_recursive]
    rcases hpl : process_level fetch filt pkgs path st with ⟨st1, next, raised⟩
    have h1 : StInv fetch filt st1 := by
      have h2 := process_level_inv fetch filt pkgs path st h
      rw [hpl] at h2
      exact h2
    simp only [hpl]
    cases raised with
    | true => exact h1
    | false =>
      dsimp only
      by_cases hne : next.isEmpty
      · rw [if_pos hne]; exact h1
      · rw [if_neg hne]
        exact foldl_preserve _ (fun s pkg hs => ih [pkg] _ s hs) next st1 h1

theorem bfs_recursive_no_cycle_nil (fetch : Fetch) (filt : String) :
    ∀ (n : Nat) (pkgs : List String) (st : BuildState),
      (bfs_recursive fetch filt n pkgs [] st).2 = false := by
  intro n pkgs st
  cases n with
  | zero => rfl
  | succ n =>
    rw [bfs_recursive]
    rcases hpl : process_level fetch filt pkgs [] st with ⟨st1, next, raised⟩
    have hr : raised = false := by
      have h2 := process_level_no_cycle_nil fetch filt pkgs st
      rw [hpl] at h2
      exact h2
    subst hr
    simp only [hpl]
    by_cases hne : next.isEmpty
    · rw [if_pos hne]
    · rw [if_neg hne]

theorem bfs_recursive_keeps_key (fetch : Fetch) (filt : String) (k : String) :
    ∀ (n : Nat) (pkgs path : List String) (st : BuildState),
      (∃ l, (k, l) ∈ st.tree) →
      ∃ l, (k, l) ∈ (bfs_recursive fetch filt n pkgs path st).1.tree := by
  intro n
  induction n with
  | zero => intro pkgs path st h; exact h
  | succ n ih =>
    intro pkgs path st h
    rw [bfs_recursive]
    rcases hpl : process_level fetch filt pkgs path st with ⟨st1, next, raised⟩
    have h1 : ∃ l, (k, l) ∈ st1.tree := by
      have h2 := process_level_keeps_key fetch filt k pkgs path st h
      rw [hpl] at h2
      exact h2
    simp only [hpl]
    cases raised with
    | true => exact h1
    | false =>
      dsimp only
      by_cases hne : next.isEmpty
      · rw [if_pos hne]; exact h1
      · rw [if_neg hne]
        exact foldl_preserve _ (fun s pkg hs => ih [pkg] _ s hs) next st1 h1

/-! ### Build-level consequences -/

theorem build_graph_ok (latest : String → String → Except PyError String)
    (fetch : Fetch) (maxDepth : Nat) (filterSubstring rootPackage : String)
    (g a : String) (v : Option String) (rv : String)
    (hp : parse_package_name rootPackage = Except.ok (g, a, v))
    (hr : resolve_version latest g a v = Except.ok rv) :
    build_graph latest fetch maxDepth filterSubstring rootPackage =
      Except.ok (bfs_recursive fetch (pyLower filterSubstring) maxDepth
        [g ++ ":" ++ a ++ ":" ++ rv] [] ⟨[], [], [], []⟩).1 := by
  unfold build_graph
  simp only [hp, hr]
  rw [bfs_recursive_no_cycle_nil]
  rfl

theorem build_graph_ok_inv (latest : String → String → Except PyError String)
    (fetch : Fetch) (maxDepth : Nat) (filterSubstring rootPackage : String)
    (st : BuildState)
    (hbuild : build_graph latest fetch maxDepth filterSubstring rootPackage =
      Except.ok st) : StInv fetch (pyLower filterSubstring) st := by
  cases hp : parse_package_name rootPackage with
  | error e =>
    unfold build_graph at hbuild
    simp only [hp] at hbuild
    exact Except.noConfusion hbuild
  | ok t =>
    obtain ⟨g, a, v⟩ := t
    cases hr : resolve_version latest g a v with
    | error e =>
      unfold build_graph at hbuild
      simp only [hp, hr] at hbuild
      exact Except.noConfusion hbuild
    | ok rv =>
      rw [build_graph_ok latest fetch maxDepth filterSubstring rootPackage
        g a v rv hp hr] at hbuild
      injection hbuild with hst
      rw [← hst]
      apply bfs_recursive_inv
      exact ⟨fun pkg deps hmem => absurd hmem (List.not_mem_nil _),
        fun _ p hp2 => absurd hp2 (List.not_mem_nil p)⟩

/-! ### Invariant preservation through the flat-file BFS -/

theorem TTreeOk_dictSet {filt : String} {tr : List (String × List Dep)}
    (h : TTreeOk filt tr) {k : String} {v : List Dep}
    (hdeps : ∀ dep, dep ∈ v → filt ≠ "" →
      strContains (pyLower dep.artifactId) filt = false) :
    TTreeOk filt (dictSet tr k v) := by
  intro pkg deps hmem
  rcases mem_dictSet hmem with hin | heq
  · exact h pkg deps hin
  · injection heq with h1 h2
    subst h1; subst h2
    exact hdeps

theorem t_process_level_inv (tfetch : TFetch) (filt : String) :
    ∀ (pkgs path : List String) (st : BuildState), TStInv filt st →
      TStInv filt (t_process_level tfetch filt pkgs path st).1 := by
  intro pkgs
  induction pkgs with
  | nil => intro path st h; exact h
  | cons package rest ih =>
    intro path st h
    rw [t_process_level]
    by_cases hv : package ∈ st.visited
    · rw [if_pos hv]
      by_cases hp : package ∈ path
      · rw [if_pos hp]; exact h
      · rw [if_neg hp]; exact ih path st h
    · rw [if_neg hv]
      dsimp only
      have h1 : TStInv filt {st with visited := st.visited ++ [package]} := h
      by_cases hf : (!(filt == "") && strContains (pyLower package) filt) = true
      · rw [if_pos hf]
        exact ih path _ h1
      · rw [if_neg hf]
        have hf0 : (!(filt == "") && strContains (pyLower package) filt) = false :=
          Bool.eq_false_iff.mpr hf
        have hfet : filt ≠ "" → strContains (pyLower package) filt = false := by
          intro hne
          have hb : (filt == "") = false := beq_eq_false_iff_ne.mpr hne
          rw [hb] at hf0
          simpa using hf0
        have h2 : TStInv filt
            {st with visited := st.visited ++ [package],
                     fetched := st.fetched ++ [package]} := by
          refine ⟨h1.1, fun hne p hp => ?_⟩
          rcases List.mem_append.mp hp with hin | hone
          · exact h1.2 hne p hin
          · rw [List.mem_singleton.mp hone]
            exact hfet hne
        cases hfetch : tfetch package with
        | error e =>
          dsimp only
          refine ih path
            {st with
              visited := st.visited ++ [package],
              tree := dictSet st.tree package [],
              fetched := st.fetched ++ [package]} ⟨?_, h2.2⟩
          exact TTreeOk_dictSet h2.1
            (fun dep hd => absurd hd (List.not_mem_nil dep))
        | ok dependencies =>
          dsimp only
          refine ih path
            {st with
              visited := st.visited ++ [package],
              tree := dictSet st.tree package (dependencies.filter (fun dep =>
                filt == "" || !strContains (pyLower dep.artifactId) filt)),
              fetched := st.fetched ++ [package]} ⟨?_, h2.2⟩
          apply TTreeOk_dictSet h2.1
          intro dep hd hne
          have hcond := (List.mem_filter.mp hd).2
          have hb : (filt == "") = false := beq_eq_false_iff_ne.mpr hne
          rw [hb] at hcond
          simpa using hcond

theorem t_process_level_no_cycle_nil (tfetch : TFetch) (filt : String) :
    ∀ (pkgs : List String) (st : BuildState),
      (t_process_level tfetch filt pkgs [] st).2.2 = false := by
  intro pkgs
  induction pkgs with
  | nil => intro st; rfl
  | cons package rest ih =>
    intro st
    rw [t_process_level]
    by_cases hv : package ∈ st.visited
    · rw [if_pos hv, if_neg (List.not_mem_nil package)]
      exact ih _
    · rw [if_neg hv]
      dsimp only
      by_cases hf : (!(filt == "") && strContains (pyLower package) filt) = true
      · rw [if_pos hf]; exact ih _
      · rw [if_neg hf]
        cases hfetch : tfetch package with
        | error e => exact ih _
        | ok dependencies => exact ih _

theorem t_bfs_recursive_inv (tfetch : TFetch) (filt : String) :
    ∀ (n : Nat) (pkgs path : List String) (st : BuildState), TStInv filt st →
      TStInv filt (t_bfs_recursive tfetch filt n pkgs path st).1 := by
  intro n
  induction n with
  | zero => intro pkgs path st h; exact h
  | succ n ih =>
    intro pkgs path st h
    rw [t_bfs_recursive]
    rcases hpl : t_process_level tfetch filt pkgs path st with ⟨st1, next, raised⟩
    have h1 : TStInv filt st1 := by
      have h2 := t_process_level_inv tfetch filt pkgs path st h
      rw [hpl] at h2
      exact h2
    simp only [hpl]
    cases raised with
    | true => exact h1
    | false =>
      dsimp only
      by_cases hne : next.isEmpty
      · rw [if_pos hne]; exact h1
      · rw [if_neg hne]
        exact foldl_preserve _ (fun s pkg hs => ih [pkg] _ s hs) next st1 h1

theorem t_bfs_recursive_no_cycle_nil (tfetch : TFetch) (filt : String) :
    ∀ (n : Nat) (pkgs : List String) (st : BuildState),
      (t_bfs_recursive tfetch filt n pkgs [] st).2 = false := by
  intro n pkgs st
  cases n with
  | zero => rfl
  | succ n =>
    rw [t_bfs_recursive]
    rcases hpl : t_process_level tfetch filt pkgs [] st with ⟨st1, next, raised⟩
    have hr : raised = false := by
      have h2 := t_process_level_no_cycle_nil tfetch filt pkgs st
      rw [hpl] at h2
      exact h2
    subst hr
    simp only [hpl]
    by_cases hne : next.isEmpty
    · rw [if_pos hne]
    · rw [if_neg hne]

theorem t_build_graph_ok (u : Unit) (tfetch : TFetch) (maxDepth : Nat)
    (filterSubstring rootPackage : String) :
    t_build_graph (Except.ok u) tfetch maxDepth filterSubstring rootPackage =
      Except.ok (t_bfs_recursive tfetch (pyLower filterSubstring) maxDepth
        [rootPackage] [] ⟨[], [], [], []⟩).1 := by
  unfold t_build_graph
  dsimp only
  rw [t_bfs_recursive_no_cycle_nil]
  rfl

theorem t_build_graph_ok_inv (validate : Except PyError Unit) (tfetch : TFetch)
    (maxDepth : Nat) (filterSubstring rootPackage : String) (st : BuildState)
    (hbuild : t_build_graph validate tfetch maxDepth filterSubstring rootPackage =
      Except.ok st) : TStInv (pyLower filterSubstring) st := by
  cases validate with
  | error e =>
    unfold t_build_graph at hbuild
    exact Except.noConfusion hbuild
  | ok u =>
    rw [t_build_graph_ok u tfetch maxDepth filterSubstring rootPackage] at hbuild
    injection hbuild with hst
    rw [← hst]
    apply t_bfs_recursive_inv
    exact ⟨fun pkg deps hmem => absurd hmem (List.not_mem_nil _),
      fun _ p hp2 => absurd hp2 (List.not_mem_nil p)⟩

/-- Unfolding of `resolve_property` for a well-formed `${...}`
reference. -/
theorem resolve_property_form (ref : String) (props : List (String × String))
    (hs : pyStartsWith ref "$\x7b" = true) (he : pyEndsWith ref "\x7d" = true) :
    resolve_property ref props =
      match List.lookup (innerNameOf ref) props with
      | some v => v
      | none =>
        if pyEndsWith (innerNameOf ref) "Version" then
          match props.find? (fun kv =>
              pyEndsWith (pyLower kv.1) "version" &&
              strContains (pyLower kv.1)
                (pyLower (pyReplaceVersion (innerNameOf ref)))) with
          | some kv => kv.2
          | none => ref
        else ref := by
  unfold resolve_property innerNameOf
  rw [hs, he]
  rfl

/-! ### C1 — reverse-lookup exhaustiveness (refuted: single path kept)

On the diamond, `_find_dependency_paths` records `[A,B,D]` and then
returns from the target frame without executing `visited.remove`, so
the later branch `A→C→D` is cut off at the already-visited `D`. -/

/-- C1: evaluating the reverse-dependency analysis of the code on the
diamond graph `A→B, A→C, B→D, C→D` with target `D` records only the
single path `[A,B,D]` under key `A` — not the two paths the claim
requires. -/
theorem diamond_single_path_per_source :
    analyze_reverse_dependencies diamondGraph "D" =
      [("A", [["A", "B", "D"]]), ("B", [["B", "D"]]), ("C", [["C", "D"]])] := rfl

/-! ### C2 — reverse-lookup round-trip (refuted: `[X,Y]` can be lost) -/

/-- C2: in a graph with the direct edge `X→Y` where the sibling branch
through `Z` reaches `Y` first, the two-element path `[X, Y]` is not
recorded under `X`: only `[X,Z,Y]` is, because the first recorded path
leaves `Y` in the visited set for the rest of the `X`-rooted search. -/
theorem direct_edge_path_missing :
    analyze_reverse_dependencies c2Graph "Y" =
      [("X", [["X", "Z", "Y"]]), ("Z", [["Z", "Y"]])] := rfl

/-! ### C3 — cycle recoverability and termination -/

/-- C3: for every `maxDepth ≥ 3`, building the graph over the two-node
cycle `a:a:1.0 → b:b:1.0 → a:a:1.0` terminates (the embedding is a
total function and this equation evaluates), records exactly one
`CycleDetected` condition, and still returns the partial graph
containing both nodes — the cycle error is caught by the parent level
and does not abort the build. -/
theorem cycle_build_recovers (d : Nat) (h : 3 ≤ d) :
    build_graph noMeta cycFetch d "" "a:a:1.0" =
      Except.ok ⟨["a:a:1.0", "b:b:1.0"],
        [("a:a:1.0", [⟨"b", "b", some "1.0", "compile"⟩]),
         ("b:b:1.0", [⟨"a", "a", some "1.0", "compile"⟩])],
        ["a:a:1.0 -> b:b:1.0 -> a:a:1.0"],
        ["a:a:1.0", "b:b:1.0"]⟩ := by
  obtain ⟨r, rfl⟩ : ∃ r, d = r + 3 := ⟨d - 3, by omega⟩
  rfl

/-- Witness for C3 at the concrete depth `maxDepth = 3`. -/
theorem cycle_build_recovers_witness :
    3 ≤ 3 ∧ build_graph noMeta cycFetch 3 "" "a:a:1.0" =
      Except.ok ⟨["a:a:1.0", "b:b:1.0"],
        [("a:a:1.0", [⟨"b", "b", some "1.0", "compile"⟩]),
         ("b:b:1.0", [⟨"a", "a", some "1.0", "compile"⟩])],
        ["a:a:1.0 -> b:b:1.0 -> a:a:1.0"],
        ["a:a:1.0", "b:b:1.0"]⟩ :=
  ⟨Nat.le_refl 3, cycle_build_recovers 3 (Nat.le_refl 3)⟩

/-! ### C4 — boundary-depth recording (corrected)

The guard `current_depth >= max_depth` returns before anything is
recorded, so a node first reached at the boundary depth is *not* a key
of the returned adjacency map. -/

/-- C4 counterexample: with `maxDepth = 1` and the single edge
`a:a:1.0 → b:b:1.0`, the node `b:b:1.0` is first reached at the
boundary depth 1 (it is stored as an edge of the root), yet it is not
recorded as a key of the returned adjacency map. -/
theorem boundary_node_not_recorded :
    build_graph noMeta fetchAB 1 "" "a:a:1.0" =
      Except.ok ⟨["a:a:1.0"],
        [("a:a:1.0", [⟨"b", "b", some "1.0", "compile"⟩])], [], ["a:a:1.0"]⟩ ∧
    List.lookup "b:b:1.0"
      [("a:a:1.0", [(⟨"b", "b", some "1.0", "compile"⟩ : Dep)])] = none :=
  ⟨rfl, rfl⟩

/-- C4 (amended): expansion stops once the current depth equals
`maxDepth` — a traversal frame entered at the boundary (remaining
budget 0, i.e. `current_depth ≥ max_depth`) returns immediately,
recording no key, no edge, no cycle and fetching nothing, so nodes
first reached at the boundary depth are not expanded and, unless they
were already reached at a smaller depth, do not appear as keys. -/
theorem bfs_stops_at_boundary (fetch : Fetch) (filt : String)
    (packages path : List String) (st : BuildState) :
    bfs_recursive fetch filt 0 packages path st = (st, false) := rfl

/-! ### C5 — unresolved placeholders never enter the graph -/

/-- C5: in every successfully built graph, no stored edge has a version
string beginning with `"$\x7b"`: a dependency whose version is an
unresolved placeholder is discarded by the `is_version_resolved` filter
before the edge list is stored. -/
theorem no_unresolved_placeholder_in_graph
    (latest : String → String → Except PyError String) (fetch : Fetch)
    (maxDepth : Nat) (filterSubstring rootPackage : String) (st : BuildState)
    (hbuild : build_graph latest fetch maxDepth filterSubstring rootPackage =
      Except.ok st) :
    ∀ pkg deps, (pkg, deps) ∈ st.tree → ∀ dep, dep ∈ deps →
      ∀ vs, dep.version = some vs → pyStartsWith vs "$\x7b" = false := by
  intro pkg deps hmem dep hd vs hvs
  have h := build_graph_ok_inv latest fetch maxDepth filterSubstring rootPackage
    st hbuild
  have hres := ((h.1 pkg deps hmem).2 dep hd).1
  rw [hvs] at hres
  simpa [is_version_resolved] using hres

/-- Witness for C5: a build over `wFetch` (whose root declares a
dependency with version `${undefined.prop}`) keeps only the resolved
edge, and the theorem applies to it. -/
theorem no_unresolved_placeholder_in_graph_witness :
    pyStartsWith "2.0" "$\x7b" = false :=
  no_unresolved_placeholder_in_graph noMeta wFetch 2 "" "a:a:1.0"
    ⟨["a:a:1.0", "b:b:2.0"],
     [("a:a:1.0", [⟨"b", "b", some "2.0", "compile"⟩]), ("b:b:2.0", [])],
     [], ["a:a:1.0", "b:b:2.0"]⟩ rfl
    "a:a:1.0" [⟨"b", "b", some "2.0", "compile"⟩] (by decide)
    ⟨"b", "b", some "2.0", "compile"⟩ (by decide) "2.0" rfl

/-! ### C6 — the substring filter (corrected)

The Maven builder (`graph_base.py`) filters edges by the lower-cased
`group:artifact` key, but the flat-file builder
(`test_repository.py:131-135`) filters edges by `artifactId` alone,
while every test-mode dependency carries `groupId='test'` — so a stored
test-mode edge whose `group:artifact` key contains the filter can be
retained, refuting the claim as stated for those builds. -/

/-- C6 counterexample: building the test repository `A: B` with filter
`"es"` keeps the edge to `B` (its `artifactId` `b` does not contain
`es`), although the edge's `group:artifact` key `test:B` lower-cases to
`test:b`, which does contain the filter substring `es`. -/
theorem test_filter_edge_retained :
    t_build_graph (Except.ok ()) tFetchAB 2 "es" "A" =
      Except.ok ⟨["A", "B"],
        [("A", [⟨"test", "B", some "1.0.0", "compile"⟩]), ("B", [])],
        [], ["A", "B"]⟩ ∧
    strContains (pyLower ("test" ++ ":" ++ "B")) (pyLower "es") = true :=
  ⟨rfl, rfl⟩

/-- C6 (amended): for every successful build with a non-empty
(lower-cased) filter substring, in both builders no package whose
lower-cased key contains the filter ever has its dependencies fetched;
in the Maven builder no stored edge has a lower-cased `group:artifact`
key containing the filter, while in the flat-file builder edges are
filtered by `artifactId` alone — no stored test-mode edge has a
lower-cased `artifactId` containing the filter (but its
`group:artifact` key may still contain it). -/
theorem filter_excludes_nodes_and_edges
    (latest : String → String → Except PyError String) (fetch : Fetch)
    (validate : Except PyError Unit) (tfetch : TFetch)
    (maxDepth tMaxDepth : Nat)
    (filterSubstring rootPackage tRootPackage : String)
    (st tst : BuildState)
    (hbuild : build_graph latest fetch maxDepth filterSubstring rootPackage =
      Except.ok st)
    (htbuild : t_build_graph validate tfetch tMaxDepth filterSubstring
      tRootPackage = Except.ok tst)
    (hne : pyLower filterSubstring ≠ "") :
    (∀ pkg, pkg ∈ st.fetched →
      strContains (pyLower pkg) (pyLower filterSubstring) = false) ∧
    (∀ pkg deps, (pkg, deps) ∈ st.tree → ∀ dep, dep ∈ deps →
      strContains (pyLower (dep.groupId ++ ":" ++ dep.artifactId))
        (pyLower filterSubstring) = false) ∧
    (∀ pkg, pkg ∈ tst.fetched →
      strContains (pyLower pkg) (pyLower filterSubstring) = false) ∧
    (∀ pkg deps, (pkg, deps) ∈ tst.tree → ∀ dep, dep ∈ deps →
      strContains (pyLower dep.artifactId) (pyLower filterSubstring) = false) := by
  have h := build_graph_ok_inv latest fetch maxDepth filterSubstring rootPackage
    st hbuild
  have ht := t_build_graph_ok_inv validate tfetch tMaxDepth filterSubstring
    tRootPackage tst htbuild
  exact ⟨fun pkg hp => h.2 hne pkg hp,
    fun pkg deps hmem dep hd => ((h.1 pkg deps hmem).2 dep hd).2 hne,
    fun pkg hp => ht.2 hne pkg hp,
    fun pkg deps hmem dep hd => ht.1 pkg deps hmem dep hd hne⟩

/-- Witness for C6: a Maven build over `bFetch` (which drops the
`bad:lib` edge) and a test build over `tFetchAB`, both with filter
`"BAD"`, satisfy the amended property. -/
theorem filter_excludes_nodes_and_edges_witness :
    strContains (pyLower "B") (pyLower "BAD") = false :=
  (filter_excludes_nodes_and_edges noMeta bFetch (Except.ok ()) tFetchAB 2 2
    "BAD" "a:a:1.0" "A"
    ⟨["a:a:1.0", "x:x:1"],
     [("a:a:1.0", [⟨"x", "x", some "1", "compile"⟩]), ("x:x:1", [])],
     [], ["a:a:1.0", "x:x:1"]⟩
    ⟨["A", "B"],
     [("A", [⟨"test", "B", some "1.0.0", "compile"⟩]), ("B", [])],
     [], ["A", "B"]⟩ rfl rfl (by decide)).2.2.2
    "A" [⟨"test", "B", some "1.0.0", "compile"⟩] (by decide)
    ⟨"test", "B", some "1.0.0", "compile"⟩ (by decide)

/-! ### C8 — per-node fetch failures degrade to an empty edge list -/

/-- C8: (1) in every successful build, a recorded package whose
dependency fetch fails is mapped to the empty edge list; (2) once the
root coordinate parses and its version resolves, the build succeeds for
*every* fetch oracle — per-node failures are never propagated; (3) with
`maxDepth ≥ 1` and no filter, the root is still recorded (with `[]`)
even when its own fetch fails. -/
theorem fetch_failure_degrades
    (latest : String → String → Except PyError String) (fetch : Fetch)
    (maxDepth : Nat) (filterSubstring rootPackage : String) :
    (∀ st pkg l,
      build_graph latest fetch maxDepth filterSubstring rootPackage =
        Except.ok st →
      (pkg, l) ∈ st.tree → (nodeFetch fetch pkg).isOk = false → l = []) ∧
    (∀ g a v rv, parse_package_name rootPackage = Except.ok (g, a, v) →
      resolve_version latest g a v = Except.ok rv →
      (build_graph latest fetch maxDepth filterSubstring rootPackage).isOk = true) ∧
    (∀ st g a v rv,
      build_graph latest fetch maxDepth "" rootPackage = Except.ok st →
      parse_package_name rootPackage = Except.ok (g, a, v) →
      resolve_version latest g a v = Except.ok rv → 1 ≤ maxDepth →
      (nodeFetch fetch (g ++ ":" ++ a ++ ":" ++ rv)).isOk = false →
      (g ++ ":" ++ a ++ ":" ++ rv, ([] : List Dep)) ∈ st.tree) := by
  refine ⟨?_, ?_, ?_⟩
  · intro st pkg l hbuild hmem hfail
    have h := build_graph_ok_inv latest fetch maxDepth filterSubstring
      rootPackage st hbuild
    exact (h.1 pkg l hmem).1 hfail
  · intro g a v rv hp hr
    rw [build_graph_ok latest fetch maxDepth filterSubstring rootPackage
      g a v rv hp hr]
    rfl
  · intro st g a v rv hbuild hp hr hd hfail
    rw [build_graph_ok latest fetch maxDepth "" rootPackage g a v rv hp hr]
      at hbuild
    injection hbuild with hst
    have hle : pyLower "" = "" := rfl
    rw [hle] at hst
    obtain ⟨m, rfl⟩ : ∃ m, maxDepth = m + 1 := ⟨maxDepth - 1, by omega⟩
    have hkey : ∃ l, (g ++ ":" ++ a ++ ":" ++ rv, l) ∈ st.tree := by
      rw [← hst]
      rw [bfs_recursive]
      rcases hpl : process_level fetch "" [g ++ ":" ++ a ++ ":" ++ rv]
          [] ⟨[], [], [], []⟩ with ⟨st1, next, raised⟩
      have h1 : ∃ l, (g ++ ":" ++ a ++ ":" ++ rv, l) ∈ st1.tree := by
        have h2 := process_level_records_head fetch (g ++ ":" ++ a ++ ":" ++ rv)
          [] [] ⟨[], [], [], []⟩ (List.not_mem_nil _)
        rw [hpl] at h2
        exact h2
      simp only [hpl]
      cases raised with
      | true => exact h1
      | false =>
        dsimp only
        by_cases hne : next.isEmpty
        · rw [if_pos hne]; exact h1
        · rw [if_neg hne]
          exact foldl_preserve _
            (fun s pkg hs => bfs_recursive_keeps_key fetch "" _ m
              [pkg] _ s hs) next st1 h1
    rcases hkey with ⟨l, hl⟩
    have h := build_graph_ok_inv latest fetch (m + 1) "" rootPackage st
      (by rw [build_graph_ok latest fetch (m + 1) "" rootPackage g a v rv hp hr,
        hle, hst])
    have hl0 : l = [] := (h.1 _ l hl).1 hfail
    rw [hl0] at hl
    exact hl

/-- Witness for C8: the all-failing backend still yields a successful
build recording the root with an empty edge list. -/
theorem fetch_failure_degrades_witness :
    ("a:a:1.0", ([] : List Dep)) ∈
      (⟨["a:a:1.0"], [("a:a:1.0", [])], [], ["a:a:1.0"]⟩ : BuildState).tree :=
  (fetch_failure_degrades noMeta failFetch 3 "" "a:a:1.0").2.2
    ⟨["a:a:1.0"], [("a:a:1.0", [])], [], ["a:a:1.0"]⟩
    "a" "a" (some "1.0") "1.0" rfl rfl rfl (by decide) rfl

/-! ### C7 — `resolveProperty` contract (corrected)

The fallback runs `property_name.replace('Version', '')`, which removes
*every* occurrence of `"Version"`, not just a trailing suffix. -/

/-- C7 counterexample: for the reference `${aVersionbVersion}` with the
single property `aVersionb.version ↦ 1.0`, stripping only the trailing
suffix (the claim's description) would resolve to `1.0`, but the code
replaces every occurrence of `Version` (leaving `ab`), finds no match,
and returns the placeholder unresolved. -/
theorem resolve_property_strip_counterexample :
    resolve_property "${aVersionbVersion}" [("aVersionb.version", "1.0")] =
      "${aVersionbVersion}" ∧
    resolve_property_claim "${aVersionbVersion}" [("aVersionb.version", "1.0")] =
      "1.0" := ⟨rfl, rfl⟩

/-- C7 (amended): a reference not of the form `${...}` is returned
unchanged; if the inner name is a key of the mapping its value is
returned; otherwise, only when the inner name ends in `Version`, the
fallback removes every occurrence of `Version` from the name,
lower-cases it, and returns the value of the first property key ending
in `version` (case-insensitively) whose lower-cased form contains the
stripped name; in every other case the original placeholder string is
returned unresolved, and the function never raises (it is total). -/
theorem resolve_property_contract (ref : String)
    (props : List (String × String)) :
    (¬ (pyStartsWith ref "$\x7b" = true ∧ pyEndsWith ref "\x7d" = true) →
       resolve_property ref props = ref) ∧
    (∀ v, pyStartsWith ref "$\x7b" = true → pyEndsWith ref "\x7d" = true →
       List.lookup (innerNameOf ref) props = some v →
       resolve_property ref props = v) ∧
    (pyStartsWith ref "$\x7b" = true → pyEndsWith ref "\x7d" = true →
       List.lookup (innerNameOf ref) props = none →
       pyEndsWith (innerNameOf ref) "Version" = false →
       resolve_property ref props = ref) ∧
    (∀ pr, pyStartsWith ref "$\x7b" = true → pyEndsWith ref "\x7d" = true →
       List.lookup (innerNameOf ref) props = none →
       pyEndsWith (innerNameOf ref) "Version" = true →
       props.find? (fun kv =>
           pyEndsWith (pyLower kv.1) "version" &&
           strContains (pyLower kv.1) (pyLower (pyReplaceVersion (innerNameOf ref)))) =
         some pr →
       resolve_property ref props = pr.2) ∧
    (pyStartsWith ref "$\x7b" = true → pyEndsWith ref "\x7d" = true →
       List.lookup (innerNameOf ref) props = none →
       pyEndsWith (innerNameOf ref) "Version" = true →
       props.find? (fun kv =>
           pyEndsWith (pyLower kv.1) "version" &&
           strContains (pyLower kv.1) (pyLower (pyReplaceVersion (innerNameOf ref)))) =
         none →
       resolve_property ref props = ref) := by
  refine ⟨?_, ?_, ?_, ?_, ?_⟩
  · intro h
    unfold resolve_property
    cases hs : pyStartsWith ref "$\x7b" with
    | false => rfl
    | true =>
      cases he : pyEndsWith ref "\x7d" with
      | false => rfl
      | true => exact absurd ⟨hs, he⟩ h
  · intro v hs he hl
    rw [resolve_property_form ref props hs he, hl]
  · intro hs he hl hev
    rw [resolve_property_form ref props hs he, hl, hev]
    rfl
  · intro pr hs he hl hev hfind
    rw [resolve_property_form ref props hs he, hl, hev]
    show (match props.find? _ with | some kv => kv.2 | none => ref) = pr.2
    rw [hfind]
  · intro hs he hl hev hfind
    rw [resolve_property_form ref props hs he, hl, hev]
    show (match props.find? _ with | some kv => kv.2 | none => ref) = ref
    rw [hfind]

/-- Witness for C7's amended contract: a present key resolves to its
value, and a non-placeholder is returned unchanged. -/
theorem resolve_property_contract_witness :
    resolve_property "${junit.version}" [("junit.version", "4.13.2")] = "4.13.2" ∧
    resolve_property "1.2.3" [("junit.version", "4.13.2")] = "1.2.3" :=
  ⟨(resolve_property_contract "${junit.version}" [("junit.version", "4.13.2")]).2.1
      "4.13.2" rfl rfl rfl,
   (resolve_property_contract "1.2.3" [("junit.version", "4.13.2")]).1
      (by decide)⟩

/-! ### C9 — coordinate parsing contract -/

/-- C9: `parse_package_name` splits on `':'` and succeeds exactly when
this yields 2 or 3 parts with non-empty group and artifact, returning
`(group, artifact, version?)`; for a part count outside `[2,3]` or an
empty group/artifact it fails with `InvalidValueError`
(the code's `InvalidCoordinate`). -/
theorem parse_package_name_contract (s : String) :
    (∀ g a, pySplit ':' s = [g, a] → g ≠ "" → a ≠ "" →
       parse_package_name s = Except.ok (g, a, none)) ∧
    (∀ g a v, pySplit ':' s = [g, a, v] → g ≠ "" → a ≠ "" →
       parse_package_name s = Except.ok (g, a, some v)) ∧
    ((pySplit ':' s).length < 2 ∨ 3 < (pySplit ':' s).length ∨
       (pySplit ':' s).headD "" = "" ∨ (pySplit ':' s).getD 1 "" = "" →
       ∃ m, parse_package_name s = Except.error (PyError.invalidValue m)) := by
  refine ⟨?_, ?_, ?_⟩
  · intro g a hsp hg ha
    unfold parse_package_name
    rw [hsp]
    simp [hg, ha]
  · intro g a v hsp hg ha
    unfold parse_package_name
    rw [hsp]
    simp [hg, ha]
  · intro h
    unfold parse_package_name
    by_cases h2 : ((pySplit ':' s).length < 2 || (pySplit ':' s).length > 3) = true
    · rw [if_pos h2]
      exact ⟨_, rfl⟩
    · rw [if_neg h2]
      rw [Bool.or_eq_true, not_or] at h2
      obtain ⟨hlo, hhi⟩ := h2
      simp only [decide_eq_true_eq] at hlo hhi
      have hga : (pySplit ':' s).headD "" = "" ∨ (pySplit ':' s).getD 1 "" = "" := by
        rcases h with h | h | h | h
        · omega
        · omega
        · exact Or.inl h
        · exact Or.inr h
      rcases hga with hx | hx
      · rw [if_pos (by rw [hx]; simp)]
        exact ⟨_, rfl⟩
      · rw [if_pos (by rw [hx]; simp)]
        exact ⟨_, rfl⟩

/-- Witness for C9 at concrete coordinates. -/
theorem parse_package_name_contract_witness :
    parse_package_name "junit:junit:4.13.2" =
      Except.ok ("junit", "junit", some "4.13.2") :=
  (parse_package_name_contract "junit:junit:4.13.2").2.1 "junit" "junit" "4.13.2"
    rfl (by decide) (by decide)

/-! ### C10 — the target is never a key of the reverse-dependency map -/

/-- C10: for every dependency graph and every target key, the map
returned by the reverse-dependency analysis never contains the target
itself as a key — even with self-loops or cycles through the target,
because a node already on the current DFS path is never re-entered and
the trivial length-1 path is rejected. -/
theorem target_never_reverse_key (graphData : List (String × List Dep))
    (target : String) :
    List.lookup target (analyze_reverse_dependencies graphData target) = none := by
  unfold analyze_reverse_dependencies
  have h : ∀ (entries : List (String × List Dep))
      (acc : List (String × List (List String))),
      List.lookup target acc = none →
      List.lookup target (entries.foldl (fun acc kv =>
        let paths := find_dependency_paths graphData kv.1 target
        if paths.isEmpty then acc else dictSet acc kv.1 paths) acc) = none := by
    intro entries
    induction entries with
    | nil => intro acc ha; exact ha
    | cons kv rest ihe =>
      intro acc ha
      rw [List.foldl_cons]
      apply ihe
      show List.lookup target
        (if (find_dependency_paths graphData kv.1 target).isEmpty then acc
         else dictSet acc kv.1 (find_dependency_paths graphData kv.1 target)) = none
      by_cases hp : (find_dependency_paths graphData kv.1 target).isEmpty = true
      · rw [if_pos hp]; exact ha
      · rw [if_neg hp]
        refine lookup_dictSet_none ?_ ha
        intro he
        apply hp
        rw [he, find_paths_target_self]
        rfl
  exact h graphData [] rfl

end ConfUprav
